import Mathlib

/-!
Verification of the lambda-expression evaluation server (main.go).

The Go program represents terms by an interface `expression` with three
implementations, all allocated and stored as pointers: `variable` (a struct
with the single field `name string`), `abstraction` (fields `parameter
variable`, `body expression`) and `application` (fields `left`, `right`).
Since `variable` carries only a name, it is represented here by a `String`
(for the `parameter` field and for the second argument of `substitute`).
-/

/-- The term model: the Go sum type `expression` with its three variants.
`var` stands for the Go struct `variable` (whose only field is the name). -/
inductive expression
  | var (name : String)
  | abstraction (parameter : String) (body : expression)
  | application (left right : expression)
deriving DecidableEq, Repr

/-- The Go `String()` methods: a variable prints its name, an abstraction
prints as `(!p.body)` via `fmt.Sprintf("(!%s.%s)", ...)`, an application
prints as `(left right)`. -/
def expression.toString : expression → String
  | .var n => n
  | .abstraction p b => "(!" ++ p ++ "." ++ expression.toString b ++ ")"
  | .application l r => "(" ++ expression.toString l ++ " " ++ expression.toString r ++ ")"

/-- The Go function `substitute(expr expression, _variable variable, value
expression)`.  Its type switch has the cases `variable` (the value type),
`*abstraction` and `*application`; a Go type switch matches the exact
dynamic type, and every variable node the program builds is a pointer
(the parser pushes `&variable{...}`, and substitute itself rebuilds only
`&abstraction` and `&application`), so a variable node matches none of the
three cases and falls into `default: panic("Invalid expression")` —
modelled as `none`.  The value-type `variable` arm (a name comparison)
is dead on the program's terms.  The abstraction case compares
`e.parameter.name == _variable.name` and stops at a shadowing binder; the
application case rebuilds both children, propagating a panic from
either. -/
def substitute : expression → String → expression → Option expression
  | .var _, _, _ => none
  | .abstraction p b, v, value =>
      if p = v then some (.abstraction p b)
      else (substitute b v value).map (fun b2 => .abstraction p b2)
  | .application l r, v, value =>
      match substitute l v value, substitute r v value with
      | some l2, some r2 => some (.application l2 r2)
      | _, _ => none

/-- Whether the substitution traversal reaches some variable leaf of the
term: every variable leaf counts, unless a binder carrying the substituted
name cuts the path (shadowing stops the recursion). -/
def reachesVar : expression → String → Bool
  | .var _, _ => true
  | .abstraction p b, v => if p = v then false else reachesVar b v
  | .application l r, v => reachesVar l v || reachesVar r v

/-- Reference substitution, written to follow the wording of the
specification (section 4.3) case by case, to be compared with the
`substitute` translated from the source. -/
def substituteSpec : expression → String → expression → expression
  | .var n, v, value => if n = v then value else .var n
  | .abstraction p b, v, value =>
      if p = v then .abstraction p b
      else .abstraction p (substituteSpec b v value)
  | .application l r, v, value =>
      .application (substituteSpec l v value) (substituteSpec r v value)

/-- Outcome of the Go `Evaluate` methods: either a result term, or an
unrecovered `panic("Invalid expression")` — raised by the default branch
of the dispatch of `application.Evaluate`, or inside `substitute` (whose
panic propagates out of `Evaluate`). -/
inductive EvalResult
  | ok (e : expression)
  | fault
deriving DecidableEq, Repr

/-- The Go `Evaluate` methods, combined over the interface dispatch.
`variable.Evaluate` and `abstraction.Evaluate` return the receiver.
`application.Evaluate` dispatches on the kind of `left` only: an
abstraction head calls `substitute` on the body with the (unevaluated)
right argument — a panic inside that call propagates (`.fault`), and
otherwise the returned term is evaluated in turn; a variable head returns
the application unchanged (stuck); an application head hits the default
branch and panics.  The Go recursion has no step limit, so the model
takes a fuel parameter; `none` means the fuel ran out (the Go code would
still be running). -/
def evaluate : Nat → expression → Option EvalResult
  | _, .var n => some (.ok (.var n))
  | _, .abstraction p b => some (.ok (.abstraction p b))
  | 0, .application (.abstraction _ _) _ => none
  | fuel + 1, .application (.abstraction p b) r =>
      match substitute b p r with
      | none => some .fault
      | some t => evaluate fuel t
  | _, .application (.var x) r => some (.ok (.application (.var x) r))
  | _, .application (.application _ _) _ => some .fault

/-- Evaluating, then evaluating the result again (propagating a fault or
exhausted fuel), used to state idempotence of evaluation. -/
def evalTwice (fuel : Nat) (t : expression) : Option EvalResult :=
  match evaluate fuel t with
  | some (.ok u) => evaluate fuel u
  | r => r

/-- A term built solely from variable and application nodes. -/
def absFree : expression → Bool
  | .var _ => true
  | .abstraction _ _ => false
  | .application l r => absFree l && absFree r

/-- The head variable of a term: follow the left spine of applications; an
abstraction in head position has no head variable. -/
def headVar : expression → Option String
  | .var n => some n
  | .abstraction _ _ => none
  | .application l _ => headVar l

/-- Whether some abstraction node anywhere in the term binds the name `x`. -/
def binds (x : String) : expression → Bool
  | .var _ => false
  | .abstraction p b => p = x || binds x b
  | .application l r => binds x l || binds x r

/-- Go `unicode.IsSpace`: the Unicode white-space code points. -/
def goIsSpace (c : Char) : Bool :=
  let n := c.toNat
  (0x09 ≤ n && n ≤ 0x0D) || n == 0x20 || n == 0x85 || n == 0xA0 ||
  n == 0x1680 || (0x2000 ≤ n && n ≤ 0x200A) ||
  n == 0x2028 || n == 0x2029 || n == 0x202F || n == 0x205F || n == 0x3000

/-- Accumulator loop behind `fields`: split a character list on runs of
white space, dropping empty pieces.  `acc` holds the characters of the
current word, most recent first. -/
def fieldsAux : List Char → List Char → List String
  | [], [] => []
  | [], acc => [String.mk acc.reverse]
  | c :: cs, acc =>
      if goIsSpace c then
        match acc with
        | [] => fieldsAux cs []
        | _ => String.mk acc.reverse :: fieldsAux cs []
      else fieldsAux cs (c :: acc)

/-- Go `strings.Fields`: split the input around runs of white space,
producing no empty tokens. -/
def fields (s : String) : List String :=
  fieldsAux s.toList []

/-- One entry of the parser stack in `parseLambdaExpression`: either the
open-paren marker (the string `"("` pushed as-is) or an expression.  The
stack is a `lane.Stack`, whose `Push` prepends at the head and whose `Pop`
removes the head, so the head of the list is the top of the stack. -/
inductive Entry
  | paren
  | expr (e : expression)
deriving DecidableEq, Repr

/-- The inner loop of the `")"` case: pop entries until the marker is
popped, returning the popped expressions in pop order together with the
remaining stack.  When the stack runs out before a marker is found,
`Pop` returns nil forever (nil is not `"("`), so the Go loop never
terminates: that case is `none`. -/
def popUntilParen : List Entry → Option (List expression × List Entry)
  | [] => none
  | .paren :: rest => some ([], rest)
  | .expr e :: rest =>
      match popUntilParen rest with
      | none => none
      | some (es, st) => some (e :: es, st)

/-- Outcome of one parser action: the new stack, a Go panic (a failed
interface type assertion), or an infinite loop. -/
inductive ParseStep
  | next (stack : List Entry)
  | panicked
  | diverged
deriving DecidableEq, Repr

/-- The non-singleton arm of the `")"` case: `funcExpr := stack.Pop().
(expression)` panics on an empty stack (nil) or on the marker (a string is
not an expression); then `args.Pop().(expression)` — `args` collected the
popped entries with `Prepend`, so its head is the group element that came
first in the input, i.e. the last element of the pop order — panics when
the group was empty; an abstraction `funcExpr` calls `substitute` on its
body with that argument (a panic inside propagates), anything else builds
an application with it. -/
def applyGroup (es : List expression) (st : List Entry) : ParseStep :=
  match st with
  | [] => .panicked
  | .paren :: _ => .panicked
  | .expr f :: st' =>
      match es.reverse with
      | [] => .panicked
      | a :: _ =>
          match f with
          | .abstraction p b =>
              match substitute b p a with
              | none => .panicked
              | some body => .next (.expr (.abstraction p body) :: st')
          | _ => .next (.expr (.application f a) :: st')

/-- The `")"` case of the parser.  After the pop loop (which already
consumed the marker), a singleton group performs one extra `stack.Pop()` —
the comment in the source says it discards the opening parenthesis, but
the marker is already gone, so it silently drops whatever entry is next
(or nothing, when the stack is empty) — and pushes the single element
back; any other group size goes through `applyGroup`. -/
def closeParen (stack : List Entry) : ParseStep :=
  match popUntilParen stack with
  | none => .diverged
  | some ([a], st) => .next (.expr a :: st.tail)
  | some (es, st) => applyGroup es st

/-- Final outcome of a parse: a term, a panic, or an infinite loop. -/
inductive ParseOutcome
  | ok (e : expression)
  | panicked
  | diverged
deriving DecidableEq, Repr

/-- The token loop of `parseLambdaExpression` followed by the final
`return stack.Pop().(expression)`: the final pop panics on an empty stack
(nil) or a marker on top, and otherwise returns the top expression —
without checking that nothing else remains below it. -/
def parseRun : List String → List Entry → ParseOutcome
  | [], stack =>
      match stack with
      | .expr e :: _ => .ok e
      | _ => .panicked
  | t :: ts, stack =>
      if t = "(" then parseRun ts (.paren :: stack)
      else if t = ")" then
        match closeParen stack with
        | .next s => parseRun ts s
        | .panicked => .panicked
        | .diverged => .diverged
      else parseRun ts (.expr (.var t) :: stack)

/-- Go `parseLambdaExpression`: tokenize with `strings.Fields`, run the
stack machine, pop the result. -/
def parseLambdaExpression (s : String) : ParseOutcome :=
  parseRun (fields s) []

/-- `applyGroup` with the abstraction branch replaced by a panic, used to
show that branch is dead code. -/
def applyGroupNoAbs (es : List expression) (st : List Entry) : ParseStep :=
  match st with
  | [] => .panicked
  | .paren :: _ => .panicked
  | .expr f :: st' =>
      match es.reverse with
      | [] => .panicked
      | a :: _ =>
          match f with
          | .abstraction _ _ => .panicked
          | _ => .next (.expr (.application f a) :: st')

/-- `closeParen` built on `applyGroupNoAbs`. -/
def closeParenNoAbs (stack : List Entry) : ParseStep :=
  match popUntilParen stack with
  | none => .diverged
  | some ([a], st) => .next (.expr a :: st.tail)
  | some (es, st) => applyGroupNoAbs es st

/-- `parseRun` built on `closeParenNoAbs`. -/
def parseRunNoAbs : List String → List Entry → ParseOutcome
  | [], stack =>
      match stack with
      | .expr e :: _ => .ok e
      | _ => .panicked
  | t :: ts, stack =>
      if t = "(" then parseRunNoAbs ts (.paren :: stack)
      else if t = ")" then
        match closeParenNoAbs stack with
        | .next s => parseRunNoAbs ts s
        | .panicked => .panicked
        | .diverged => .diverged
      else parseRunNoAbs ts (.expr (.var t) :: stack)

/-- The parser with its abstraction-substitution branch replaced by a
panic: proving it equal to `parseLambdaExpression` on every input shows
the branch is unreachable. -/
def parseLambdaExpressionNoAbs (s : String) : ParseOutcome :=
  parseRunNoAbs (fields s) []

/-- A stack entry that is either the marker or an abstraction-free term. -/
def entryOk : Entry → Bool
  | .paren => true
  | .expr e => absFree e

/-- Every entry of the stack is the marker or an abstraction-free term. -/
def stackAbsFree (st : List Entry) : Bool :=
  st.all entryOk

/-- A decoded JSON value, as `encoding/json` produces into `interface`
values: null, booleans, numbers, strings, arrays, objects (decoded to a
map, modelled as an association list).  Numbers are restricted to integers
here; no claim depends on non-integer numerics. -/
inductive Json
  | null
  | bool (b : Bool)
  | num (n : Int)
  | str (s : String)
  | arr (elems : List Json)
  | obj (fields : List (String × Json))

/-- Lookup of a key in a decoded JSON object (`params["expression"]`). -/
def lookupField : List (String × Json) → String → Option Json
  | [], _ => none
  | (k, v) :: rest, key => if k = key then some v else lookupField rest key

/-- The decoded request `{id, method, params}`. -/
structure Request where
  id : Json
  method : String
  params : Json

/-- The response `{id, result}`. -/
structure Response where
  id : Json
  result : Json

/-- What handling one request does: send a response; close the connection
without responding (the logged early returns); crash the process (an
unrecovered panic in the handler goroutine); hang forever (the parser
divergence); or still be evaluating when the fuel bound is reached. -/
inductive HandlerOutcome
  | respond (resp : Response)
  | disconnect
  | crash
  | hang
  | outOfFuel

/-- One iteration of the request loop in `handleConnection`, after a
request has been decoded.  The `"evaluate"` method requires `params` to be
an object with a string field `"expression"` (otherwise the handler logs
and returns, closing the connection); it then parses, evaluates, and
responds with `{id, result: {expression: <printed term>}}`.  Any other
method responds with `{id, result: params}` unchanged. -/
def handleRequest (fuel : Nat) (req : Request) : HandlerOutcome :=
  if req.method = "evaluate" then
    match req.params with
    | .obj fs =>
        match lookupField fs "expression" with
        | some (.str text) =>
            match parseLambdaExpression text with
            | .panicked => .crash
            | .diverged => .hang
            | .ok term =>
                match evaluate fuel term with
                | none => .outOfFuel
                | some .fault => .crash
                | some (.ok res) =>
                    .respond ⟨req.id, .obj [("expression", .str res.toString)]⟩
        | _ => .disconnect
    | _ => .disconnect
  else .respond ⟨req.id, req.params⟩

/-- Helper: the source substitute never substitutes anything: it panics
exactly when the traversal reaches a variable leaf (every variable node of
the program is a pointer and matches no case of the type switch), and
otherwise — when every variable leaf sits behind a shadowing binder — it
returns the input term unchanged; the value argument is never used. -/
theorem substitute_reaches (e : expression) (v : String) (value : expression) :
    substitute e v value = if reachesVar e v = true then none else some e := by
  induction e with
  | var n => simp [substitute, reachesVar]
  | abstraction p b ih =>
      by_cases h : p = v
      · simp [substitute, reachesVar, h]
      · by_cases h2 : reachesVar b v = true
        · simp [substitute, reachesVar, h, h2, ih]
        · simp [substitute, reachesVar, h, h2, ih]
  | application l r ihl ihr =>
      by_cases h1 : reachesVar l v = true
      · simp [substitute, reachesVar, h1, ihl]
      · by_cases h2 : reachesVar r v = true
        · simp [substitute, reachesVar, h1, h2, ihl, ihr]
        · simp [substitute, reachesVar, h1, h2, ihl, ihr]

/-- C5: refuted at a concrete input.  Substituting the value z for the
variable x in the term consisting of exactly that variable panics in the
source — the program allocates variable nodes as pointers, which match no
case of the type switch in substitute, so the default branch panics —
whereas the reference case analysis of the specification returns the
value.  The claimed totality and case agreement fail. -/
theorem substitute_var_panics :
    substitute (.var "x") "x" (.var "z") = none ∧
      substituteSpec (.var "x") "x" (.var "z") = .var "z" := by
  constructor
  · rfl
  · simp [substituteSpec]

/-- C4: evaluating an application whose left child is itself an application
faults immediately, for every amount of fuel (so no reduction of the left
spine is attempted first) and never returns a term. -/
theorem evaluate_app_head_faults (fuel : Nat) (a b r : expression) :
    evaluate fuel (.application (.application a b) r) = some .fault := by
  cases fuel <;> rfl

/-- C6: refuted at a concrete input.  Evaluating the application of the
identity abstraction (!p.p) to the free variable q faults: substitute
panics on the variable leaf of the body (a pointer variable matching no
case of its type switch), and the panic aborts evaluation.  The term the
specification says gets substituted and then evaluated is q (by the
reference substitution), and evaluating q returns q — so the claimed
equation between the two evaluations fails. -/
theorem evaluate_beta_panics :
    evaluate 1 (.application (.abstraction "p" (.var "p")) (.var "q")) = some .fault ∧
      evaluate 0 (substituteSpec (.var "p") "p" (.var "q")) = some (.ok (.var "q")) := by
  constructor
  · rfl
  · simp [substituteSpec, evaluate]

/-- C7: on a term whose head is a variable that no abstraction in the term
binds, evaluation is idempotent: evaluating the result again changes
nothing. -/
theorem evaluate_stuck_idempotent (fuel : Nat) (t : expression) (x : String)
    (h1 : headVar t = some x) (h2 : binds x t = false) :
    evalTwice fuel t = evaluate fuel t := by
  cases t with
  | var n => cases fuel <;> rfl
  | abstraction p b => simp [headVar] at h1
  | application l r =>
      cases l with
      | var n => cases fuel <;> rfl
      | abstraction p b => simp [headVar] at h1
      | application a b => cases fuel <;> rfl

/-- Witness for C7 at the concrete stuck term `(x y)`. -/
theorem evaluate_stuck_idempotent_witness :
    evalTwice 0 (.application (.var "x") (.var "y"))
      = evaluate 0 (.application (.var "x") (.var "y")) :=
  evaluate_stuck_idempotent 0 (.application (.var "x") (.var "y")) "x"
    (by decide) (by decide)

/-- Helper: unfolding of `stackAbsFree` on a nonempty stack. -/
theorem stackAbsFree_cons (a : Entry) (rest : List Entry) :
    stackAbsFree (a :: rest) = (entryOk a && stackAbsFree rest) := by
  simp only [stackAbsFree, List.all_cons]

/-- Helper: the tail of an abstraction-free stack is abstraction-free. -/
theorem stackAbsFree_tail {st : List Entry} (h : stackAbsFree st = true) :
    stackAbsFree st.tail = true := by
  cases st with
  | nil => exact h
  | cons a rest =>
      rw [stackAbsFree_cons, Bool.and_eq_true] at h
      exact h.2

/-- Helper: the pop loop returns abstraction-free expressions and leaves an
abstraction-free stack, when the stack it starts from is abstraction-free. -/
theorem popUntilParen_absFree :
    ∀ (st : List Entry) (es : List expression) (st' : List Entry),
      stackAbsFree st = true → popUntilParen st = some (es, st') →
      es.all absFree = true ∧ stackAbsFree st' = true := by
  intro st
  induction st with
  | nil => intro es st' _ h; simp [popUntilParen] at h
  | cons a rest ih =>
      intro es st' hfree hpop
      cases a with
      | paren =>
          rw [stackAbsFree_cons, Bool.and_eq_true] at hfree
          simp [popUntilParen] at hpop
          obtain ⟨h1, h2⟩ := hpop
          subst h1; subst h2
          exact ⟨rfl, hfree.2⟩
      | expr e =>
          rw [stackAbsFree_cons, Bool.and_eq_true] at hfree
          have hfree' := hfree
          cases hrec : popUntilParen rest with
          | none => simp [popUntilParen, hrec] at hpop
          | some p =>
              obtain ⟨es0, st0⟩ := p
              have hih := ih es0 st0 hfree'.2 hrec
              simp [popUntilParen, hrec] at hpop
              obtain ⟨h1, h2⟩ := hpop
              subst h1; subst h2
              refine ⟨?_, hih.2⟩
              simp [List.all_cons, hih.1]
              simpa [entryOk] using hfree'.1

/-- Helper: on abstraction-free inputs the non-singleton arm never takes
the abstraction branch (so the variant with that branch removed agrees),
and any stack it produces is abstraction-free. -/
theorem applyGroup_inv (es : List expression) (st : List Entry)
    (hes : es.all absFree = true) (hst : stackAbsFree st = true) :
    applyGroupNoAbs es st = applyGroup es st ∧
      ∀ s', applyGroup es st = .next s' → stackAbsFree s' = true := by
  cases st with
  | nil => exact ⟨rfl, by intro s' h; simp [applyGroup] at h⟩
  | cons a st' =>
      cases a with
      | paren => exact ⟨rfl, by intro s' h; simp [applyGroup] at h⟩
      | expr f =>
          rw [stackAbsFree_cons, Bool.and_eq_true] at hst
          have hf := hst
          cases hrev : es.reverse with
          | nil => exact ⟨by simp [applyGroup, applyGroupNoAbs, hrev], by
              intro s' h; simp [applyGroup, hrev] at h⟩
          | cons a0 rest =>
              have ha0 : absFree a0 = true := by
                have hmem : a0 ∈ es := by
                  have : a0 ∈ es.reverse := by rw [hrev]; exact List.mem_cons_self _ _
                  simpa using this
                exact List.all_eq_true.mp hes a0 hmem
              cases f with
              | var n =>
                  refine ⟨by simp [applyGroup, applyGroupNoAbs, hrev], ?_⟩
                  intro s' h
                  simp [applyGroup, hrev] at h
                  subst h
                  rw [stackAbsFree_cons, Bool.and_eq_true]
                  exact ⟨by simp [entryOk, absFree, ha0], hf.2⟩
              | abstraction p b =>
                  exact absurd hf.1 (by simp [entryOk, absFree])
              | application l r =>
                  refine ⟨by simp [applyGroup, applyGroupNoAbs, hrev], ?_⟩
                  intro s' h
                  simp [applyGroup, hrev] at h
                  subst h
                  have hfa : absFree (expression.application l r) = true := by
                    simpa [entryOk] using hf.1
                  rw [stackAbsFree_cons, Bool.and_eq_true]
                  refine ⟨?_, hf.2⟩
                  simp only [entryOk, absFree, Bool.and_eq_true] at hfa ⊢
                  exact ⟨hfa, ha0⟩

/-- Helper: the full close-paren action agrees with the variant whose
abstraction branch is removed, and preserves abstraction-freedom of the
stack, when the stack is abstraction-free. -/
theorem closeParen_inv (st : List Entry) (hst : stackAbsFree st = true) :
    closeParenNoAbs st = closeParen st ∧
      ∀ s', closeParen st = .next s' → stackAbsFree s' = true := by
  cases hpop : popUntilParen st with
  | none =>
      exact ⟨by simp [closeParen, closeParenNoAbs, hpop], by
        intro s' h; simp [closeParen, hpop] at h⟩
  | some p =>
      obtain ⟨es, st0⟩ := p
      have h0 := popUntilParen_absFree st es st0 hst hpop
      match es, h0 with
      | [], h0 =>
          have hap := applyGroup_inv [] st0 (by simp) h0.2
          exact ⟨by simp [closeParen, closeParenNoAbs, hpop, hap.1], by
            intro s' h
            refine hap.2 s' ?_
            simpa [closeParen, hpop] using h⟩
      | [a], h0 =>
          refine ⟨by simp [closeParen, closeParenNoAbs, hpop], ?_⟩
          intro s' h
          simp [closeParen, hpop] at h
          subst h
          have ha : absFree a = true := by simpa using h0.1
          rw [stackAbsFree_cons, Bool.and_eq_true]
          exact ⟨by simpa [entryOk] using ha, stackAbsFree_tail h0.2⟩
      | a :: b :: rest, h0 =>
          have hap := applyGroup_inv (a :: b :: rest) st0 h0.1 h0.2
          exact ⟨by simp [closeParen, closeParenNoAbs, hpop, hap.1], by
            intro s' h
            refine hap.2 s' ?_
            simpa [closeParen, hpop] using h⟩

/-- Helper: the parser loop agrees with the variant whose abstraction
branch is removed, and its results are abstraction-free, from any
abstraction-free stack. -/
theorem parseRun_inv :
    ∀ (ts : List String) (st : List Entry), stackAbsFree st = true →
      parseRunNoAbs ts st = parseRun ts st ∧
        ∀ e, parseRun ts st = .ok e → absFree e = true := by
  intro ts
  induction ts with
  | nil =>
      intro st hst
      refine ⟨rfl, ?_⟩
      intro e h
      cases st with
      | nil => simp [parseRun] at h
      | cons a rest =>
          cases a with
          | paren => simp [parseRun] at h
          | expr e0 =>
              simp [parseRun] at h
              subst h
              rw [stackAbsFree_cons, Bool.and_eq_true] at hst
              simpa [entryOk] using hst.1
  | cons t ts ih =>
      intro st hst
      by_cases h1 : t = "("
      · simp only [parseRun, parseRunNoAbs, h1, if_pos]
        exact ih (.paren :: st)
          (by rw [stackAbsFree_cons, Bool.and_eq_true]; exact ⟨rfl, hst⟩)
      · by_cases h2 : t = ")"
        · have hcp := closeParen_inv st hst
          simp only [parseRun, parseRunNoAbs, h1, h2, if_neg, if_pos, hcp.1]
          cases hc : closeParen st with
          | next s => exact ih s (hcp.2 s hc)
          | panicked => exact ⟨rfl, by intro e h; simp at h⟩
          | diverged => exact ⟨rfl, by intro e h; simp at h⟩
        · simp only [parseRun, parseRunNoAbs, h1, h2, if_neg]
          exact ih (.expr (.var t) :: st)
            (by rw [stackAbsFree_cons, Bool.and_eq_true]; exact ⟨rfl, hst⟩)

/-- Helper: an abstraction-free term is evaluated in a single dispatch
step: the answer does not depend on the fuel and is always present. -/
theorem absFree_evaluate_onestep (e : expression) (h : absFree e = true) :
    (∀ fuel, evaluate fuel e = evaluate 0 e) ∧ (evaluate 0 e).isSome = true := by
  cases e with
  | var n => exact ⟨fun fuel => by cases fuel <;> rfl, rfl⟩
  | abstraction p b => simp [absFree] at h
  | application l r =>
      cases l with
      | var x => exact ⟨fun fuel => by cases fuel <;> rfl, rfl⟩
      | abstraction p b => simp [absFree] at h
      | application a b => exact ⟨fun fuel => by cases fuel <;> rfl, rfl⟩

/-- C1: on the input `"( x y )"` the parser panics — the pop loop has
already consumed the marker, the stack is empty, so popping the function
expression yields nil and the interface type assertion fails, killing the
process — instead of producing the application of x to y as claimed. -/
theorem parse_xy_panics : parseLambdaExpression "( x y )" = .panicked := by decide

/-- C2: the singleton-parenthesis law fails.  The string `"( x )"` parses
to exactly one term, the variable x, but wrapping it once more in
parentheses makes the parser loop forever: the singleton branch performs an
extra pop that consumes the outer marker, so the final `")"` never finds a
marker on the stack. -/
theorem parse_singleton_wrap_diverges :
    parseLambdaExpression "( x )" = .ok (.var "x") ∧
      parseLambdaExpression "( ( x ) )" = .diverged := by decide

/-- C3: malformed inputs are not rejected with a recoverable error: the
empty input panics on the final nil type assertion (process crash), an
unmatched closing parenthesis makes the pop loop spin forever (hang), and
an unmatched opening parenthesis silently returns a term because the final
pop never checks that exactly one entry remains. -/
theorem parse_failure_modes :
    parseLambdaExpression "" = .panicked ∧
      parseLambdaExpression ")" = .diverged ∧
      parseLambdaExpression "( x" = .ok (.var "x") := by decide

/-- C8: the parser is extensionally unchanged when its
abstraction-substitution branch is removed (the branch is dead code), and
every successfully parsed term is built solely from variable and
application nodes. -/
theorem parser_no_abstraction (s : String) :
    parseLambdaExpression s = parseLambdaExpressionNoAbs s ∧
      ∀ e, parseLambdaExpression s = .ok e → absFree e = true := by
  have h := parseRun_inv (fields s) [] rfl
  exact ⟨h.1.symm, h.2⟩

/-- Witness for C8 at the concrete input `x ( y z )`. -/
theorem parser_no_abstraction_witness :
    parseLambdaExpression "x ( y z )" = parseLambdaExpressionNoAbs "x ( y z )" ∧
      absFree (.application (.var "x") (.var "y")) = true :=
  ⟨(parser_no_abstraction "x ( y z )").1,
   (parser_no_abstraction "x ( y z )").2 _ (by decide)⟩

/-- C9: a request whose method is not `"evaluate"` is answered with
`{id, result: params}`, the params echoed unchanged. -/
theorem handler_passthrough (fuel : Nat) (req : Request)
    (h : req.method ≠ "evaluate") :
    handleRequest fuel req = .respond ⟨req.id, req.params⟩ := by
  simp [handleRequest, h]

/-- Witness for C9 at the request `{id: 1, method: "ping", params: {"a": 1}}`. -/
theorem handler_passthrough_witness :
    handleRequest 0 ⟨.num 1, "ping", .obj [("a", .num 1)]⟩
      = .respond ⟨.num 1, .obj [("a", .num 1)]⟩ :=
  handler_passthrough 0 ⟨.num 1, "ping", .obj [("a", .num 1)]⟩ (by decide)

/-- C10: every term produced by a successful parse is evaluated in a
single dispatch step: the result does not depend on the fuel bound and is
always present (a term or the fault), so evaluation terminates on every
parser-produced term. -/
theorem parse_result_evaluates_in_one_step (s : String) (e : expression)
    (h : parseLambdaExpression s = .ok e) :
    (∀ fuel, evaluate fuel e = evaluate 0 e) ∧ (evaluate 0 e).isSome = true :=
  absFree_evaluate_onestep e ((parseRun_inv (fields s) [] rfl).2 e h)

/-- Witness for C10 at the concrete input `( x )`. -/
theorem parse_result_evaluates_in_one_step_witness :
    (∀ fuel, evaluate fuel (.var "x") = evaluate 0 (.var "x")) ∧
      (evaluate 0 (.var "x")).isSome = true :=
  parse_result_evaluates_in_one_step "( x )" (.var "x") (by decide)
